import Mathlib

/-!
Shallow embedding of `src/mmdet/models/dense_heads/gfl_head.py` (the GFL
dense detection head: Integral decoder, dual target assignment, per-level
loss computation and the loss orchestrator).

Tensors are modelled as lists; the numeric payload of the loss pipeline is
`ℚ` (floating point is idealised by exact rationals), while the Integral
decoder analysis instantiates the generic definitions at `ℝ` with the real
exponential, matching `F.softmax`.  External collaborators of the head
(the quality-focal / distribution-focal / box loss kernels, the aligned
IoU routine `bbox_overlaps` and the distributed `reduce_mean`) are fields
of an `Ext` record: the file under verification only ever calls them
through the narrow functional contracts of the spec.
-/

namespace GFL

/-! ### Generic tensor helpers -/

/-- A bounding box `(x1, y1, x2, y2)` in "xyxy" format. -/
structure Box where
  x1 : ℚ
  y1 : ℚ
  x2 : ℚ
  y2 : ℚ
deriving DecidableEq, Repr

/-- Source `t.reshape(-1, k)`: cut a flat list into consecutive rows of width `k`. -/
def reshapeRows {α : Type} (k : ℕ) (x : List α) : List (List α) :=
  (List.range (x.length / k)).map fun i => (x.drop (i * k)).take k

/-- Advanced indexing `xs[inds]` (gather), with a default for the model. -/
def gather {α : Type} (xs : List α) (d : α) (inds : List ℕ) : List α :=
  inds.map fun i => xs.getD i d

/-- In-place scatter `base[inds] = vals`, as sequential `List.set` writes. -/
def scatter {α : Type} (base : List α) (inds : List ℕ) (vals : List α) : List α :=
  ((inds.zip vals).foldl (fun acc p => acc.set p.1 p.2) base)

section FieldDefs

variable {α : Type} [LinearOrderedField α]

/-- Dot product of two equally long vectors (`F.linear` with a weight row). -/
def dotProd (a b : List α) : α :=
  (List.zipWith (fun p q => p * q) a b).sum

/-- Source `F.softmax(x, dim)` applied to one row, parametrised by the exponential
map `e`; the real instantiation uses `Real.exp`. -/
def softmaxWith (e : α → α) (x : List α) : List α :=
  x.map fun v => e v / (x.map e).sum

/-- The fixed buffer `torch.linspace(0, reg_max, reg_max + 1) = [0, 1, ..., reg_max]`. -/
def project (regMax : ℕ) : List α :=
  (List.range (regMax + 1)).map (Nat.cast : ℕ → α)

/-- Source `Integral.forward`: reshape to rows of `reg_max + 1` logits, softmax each
row, take the expectation against `project`, and reshape to rows of 4. -/
def integralWith (e : α → α) (regMax : ℕ) (x : List α) : List (List α) :=
  let exps := (reshapeRows (regMax + 1) x).map fun row =>
    dotProd (softmaxWith e row) (project regMax)
  reshapeRows 4 exps

end FieldDefs

/-! ### Lemmas about the Integral decoder -/

section FieldLemmas

variable {α : Type} [LinearOrderedField α]

theorem sum_map_div (l : List α) (c : α) : (l.map (fun v => v / c)).sum = l.sum / c := by
  induction l with
  | nil => simp
  | cons a as ih => simp [ih, add_div]

theorem softmaxWith_eq (e : α → α) (x : List α) :
    softmaxWith e x = (x.map e).map (fun v => v / (x.map e).sum) := by
  simp [softmaxWith]

theorem softmaxWith_sum (e : α → α) (x : List α) (he : ∀ v, 0 < e v) (hx : x ≠ []) :
    (softmaxWith e x).sum = 1 := by
  have hpos : 0 < (x.map e).sum := by
    refine List.sum_pos _ (fun a ha => ?_) (by simpa using hx)
    rcases List.mem_map.1 ha with ⟨v, _, rfl⟩
    exact he v
  rw [softmaxWith_eq, sum_map_div, div_self (ne_of_gt hpos)]

theorem softmaxWith_mem (e : α → α) (x : List α) (he : ∀ v, 0 < e v) (hx : x ≠ [])
    (y : α) (hy : y ∈ softmaxWith e x) : 0 ≤ y ∧ y ≤ 1 := by
  have hpos : 0 < (x.map e).sum := by
    refine List.sum_pos _ (fun a ha => ?_) (by simpa using hx)
    rcases List.mem_map.1 ha with ⟨v, _, rfl⟩
    exact he v
  rcases List.mem_map.1 hy with ⟨v, hv, rfl⟩
  constructor
  · exact div_nonneg (le_of_lt (he v)) (le_of_lt hpos)
  · rw [div_le_one hpos]
    exact List.single_le_sum (fun a ha => by
      rcases List.mem_map.1 ha with ⟨w, _, rfl⟩
      exact le_of_lt (he w)) _ (List.mem_map_of_mem e hv)

theorem dotProd_nonneg (p q : List α) (hp : ∀ a ∈ p, 0 ≤ a) (hq : ∀ b ∈ q, 0 ≤ b) :
    0 ≤ dotProd p q := by
  induction p generalizing q with
  | nil => simp [dotProd]
  | cons a as ih =>
    cases q with
    | nil => simp [dotProd]
    | cons b bs =>
      have h1 : 0 ≤ a * b :=
        mul_nonneg (hp a (List.mem_cons_self a as)) (hq b (List.mem_cons_self b bs))
      have h2 : 0 ≤ dotProd as bs :=
        ih bs (fun u hu => hp u (List.mem_cons_of_mem a hu))
           (fun u hu => hq u (List.mem_cons_of_mem b hu))
      simpa [dotProd] using add_nonneg h1 h2

theorem dotProd_le (p q : List α) (B : α) (hB : 0 ≤ B) (hp : ∀ a ∈ p, 0 ≤ a)
    (hq : ∀ b ∈ q, b ≤ B) : dotProd p q ≤ B * p.sum := by
  induction p generalizing q with
  | nil => simp [dotProd]
  | cons a as ih =>
    have ha : 0 ≤ a := hp a (List.mem_cons_self a as)
    have hs : 0 ≤ as.sum :=
      List.sum_nonneg (fun u hu => hp u (List.mem_cons_of_mem a hu))
    cases q with
    | nil =>
      have : (0 : α) ≤ B * (a + as.sum) := mul_nonneg hB (add_nonneg ha hs)
      simpa [dotProd] using this
    | cons b bs =>
      have h1 : a * b ≤ a * B :=
        mul_le_mul_of_nonneg_left (hq b (List.mem_cons_self b bs)) ha
      have h2 : dotProd as bs ≤ B * as.sum :=
        ih bs (fun u hu => hp u (List.mem_cons_of_mem a hu))
           (fun u hu => hq u (List.mem_cons_of_mem b hu))
      have : a * b + dotProd as bs ≤ a * B + B * as.sum := add_le_add h1 h2
      calc (List.zipWith (fun u v => u * v) (a :: as) (b :: bs)).sum
          = a * b + dotProd as bs := by simp [dotProd]
        _ ≤ a * B + B * as.sum := this
        _ = B * (a + as.sum) := by ring
        _ = B * (a :: as).sum := by simp

theorem project_mem (regMax : ℕ) (b : α) (hb : b ∈ (project regMax : List α)) :
    0 ≤ b ∧ b ≤ (regMax : α) := by
  rw [project, List.mem_map] at hb
  obtain ⟨i, hi, rfl⟩ := hb
  rw [List.mem_range] at hi
  constructor
  · exact Nat.cast_nonneg i
  · exact_mod_cast Nat.lt_succ_iff.1 hi

theorem expectation_nonneg (e : α → α) (regMax : ℕ) (l : List α) (he : ∀ v, 0 < e v)
    (hl : l ≠ []) : 0 ≤ dotProd (softmaxWith e l) (project regMax) := by
  refine dotProd_nonneg _ _ (fun a ha => (softmaxWith_mem e l he hl a ha).1)
    (fun b hb => (project_mem regMax b hb).1)

theorem expectation_le (e : α → α) (regMax : ℕ) (l : List α) (he : ∀ v, 0 < e v)
    (hl : l ≠ []) : dotProd (softmaxWith e l) (project regMax) ≤ (regMax : α) := by
  have h := dotProd_le (softmaxWith e l) (project regMax) (regMax : α)
    (Nat.cast_nonneg _) (fun a ha => (softmaxWith_mem e l he hl a ha).1)
    (fun b hb => (project_mem regMax b hb).2)
  simpa [softmaxWith_sum e l he hl] using h

end FieldLemmas

theorem reshapeRows_length {α : Type} (k : ℕ) (x : List α) :
    (reshapeRows k x).length = x.length / k := by
  simp [reshapeRows]

theorem mem_reshapeRows_length {α : Type} {k : ℕ} {x : List α} {row : List α}
    (hdvd : k ∣ x.length) (h : row ∈ reshapeRows k x) : row.length = k := by
  rcases List.mem_map.1 h with ⟨i, hi, rfl⟩
  have hi' : i < x.length / k := List.mem_range.1 hi
  have hk : i * k + k ≤ x.length := by
    have h1 : (i + 1) * k ≤ (x.length / k) * k :=
      Nat.mul_le_mul_right k (Nat.succ_le_of_lt hi')
    have h2 : (x.length / k) * k = x.length := Nat.div_mul_cancel hdvd
    calc i * k + k = (i + 1) * k := by ring
      _ ≤ (x.length / k) * k := h1
      _ = x.length := h2
  simp [List.length_take, List.length_drop]
  omega

theorem mem_of_mem_reshapeRows {α : Type} {k : ℕ} {x : List α} {row : List α} {v : α}
    (h : row ∈ reshapeRows k x) (hv : v ∈ row) : v ∈ x := by
  rcases List.mem_map.1 h with ⟨i, _, rfl⟩
  exact List.drop_subset _ _ (List.take_subset _ _ hv)

theorem integralWith_def {α : Type} [LinearOrderedField α] (e : α → α) (regMax : ℕ)
    (x : List α) :
    integralWith e regMax x =
      reshapeRows 4 ((reshapeRows (regMax + 1) x).map fun row =>
        dotProd (softmaxWith e row) (project regMax)) := rfl

/-- C2: for every logit vector of length `reg_max + 1`, the Integral decoder's
softmax yields a probability vector whose entries lie in `[0, 1]` and sum to 1,
and whose expectation against the bin indices `0..reg_max` lies in
`[0, reg_max]`; on a flat input of shape `(N, 4 * (reg_max + 1))` the decoder
returns `N` rows of 4 decoded offsets, each offset again in `[0, reg_max]`. -/
theorem c2_integral_decoder (regMax N : ℕ) (l x : List ℝ)
    (hl : l.length = regMax + 1) (hx : x.length = N * (4 * (regMax + 1))) :
    ((softmaxWith Real.exp l).sum = 1
      ∧ (∀ y ∈ softmaxWith Real.exp l, 0 ≤ y ∧ y ≤ 1)
      ∧ 0 ≤ dotProd (softmaxWith Real.exp l) (project regMax)
      ∧ dotProd (softmaxWith Real.exp l) (project regMax) ≤ ((regMax : ℕ) : ℝ))
    ∧ ((integralWith Real.exp regMax x).length = N
      ∧ ∀ row ∈ integralWith Real.exp regMax x,
          row.length = 4 ∧ ∀ v ∈ row, 0 ≤ v ∧ v ≤ ((regMax : ℕ) : ℝ)) := by
  have he : ∀ v : ℝ, 0 < Real.exp v := fun v => Real.exp_pos v
  have hlne : l ≠ [] := by
    intro h0
    rw [h0] at hl
    simp at hl
  have hxlen : x.length = (N * 4) * (regMax + 1) := by rw [hx]; ring
  have hdvd : (regMax + 1) ∣ x.length := ⟨N * 4, by rw [hxlen]; ring⟩
  have hexps : ((reshapeRows (regMax + 1) x).map fun row =>
      dotProd (softmaxWith Real.exp row) (project regMax)).length = N * 4 := by
    rw [List.length_map, reshapeRows_length, hxlen,
      Nat.mul_div_cancel _ (Nat.succ_pos regMax)]
  refine ⟨⟨softmaxWith_sum Real.exp l he hlne,
      fun y hy => softmaxWith_mem Real.exp l he hlne y hy,
      expectation_nonneg Real.exp regMax l he hlne,
      expectation_le Real.exp regMax l he hlne⟩, ?_, ?_⟩
  · rw [integralWith_def, reshapeRows_length, hexps,
      Nat.mul_div_cancel _ (by norm_num : (0 : ℕ) < 4)]
  · intro row hrow
    rw [integralWith_def] at hrow
    have hdvd4 : (4 : ℕ) ∣ ((reshapeRows (regMax + 1) x).map fun row =>
        dotProd (softmaxWith Real.exp row) (project regMax)).length := by
      rw [hexps]; exact Dvd.intro N (Nat.mul_comm 4 N)
    refine ⟨mem_reshapeRows_length hdvd4 hrow, ?_⟩
    intro v hv
    have hvexps := mem_of_mem_reshapeRows hrow hv
    rcases List.mem_map.1 hvexps with ⟨row', hrow', rfl⟩
    have hrowlen : row'.length = regMax + 1 := mem_reshapeRows_length hdvd hrow'
    have hrowne : row' ≠ [] := by
      intro h0
      rw [h0] at hrowlen
      simp at hrowlen
    exact ⟨expectation_nonneg Real.exp regMax row' he hrowne,
      expectation_le Real.exp regMax row' he hrowne⟩

/-- Concrete instantiation of `c2_integral_decoder` at `reg_max = 1`, `N = 1`. -/
theorem c2_integral_decoder_witness :
    ((softmaxWith Real.exp [0, 0]).sum = 1
      ∧ (∀ y ∈ softmaxWith Real.exp [0, 0], 0 ≤ y ∧ y ≤ 1)
      ∧ 0 ≤ dotProd (softmaxWith Real.exp [0, 0]) (project 1)
      ∧ dotProd (softmaxWith Real.exp [0, 0]) (project 1) ≤ ((1 : ℕ) : ℝ))
    ∧ ((integralWith Real.exp 1 [0, 0, 0, 0, 0, 0, 0, 0]).length = 1
      ∧ ∀ row ∈ integralWith Real.exp 1 [0, 0, 0, 0, 0, 0, 0, 0],
          row.length = 4 ∧ ∀ v ∈ row, 0 ≤ v ∧ v ≤ ((1 : ℕ) : ℝ)) :=
  c2_integral_decoder 1 1 [0, 0] [0, 0, 0, 0, 0, 0, 0, 0] rfl rfl

/-! ### External collaborators of the head

The loss kernels, the aligned IoU routine and the distributed mean
reduction are invoked by `gfl_head.py` but implemented elsewhere; per the
spec they enter only through their functional signatures, so they are
fields of a record.  `e` is the exponential map used by the softmax of the
`Integral` module (and by the sigmoid below). -/

structure Ext where
  e : ℚ → ℚ
  lossCls : List (List ℚ) → List ℤ → List ℤ → List ℕ → List ℚ → List ℚ → ℚ → ℚ
  lossBbox : List Box → List Box → List ℚ → ℚ → ℚ
  lossDfl : List (List ℚ) → List ℚ → List ℚ → ℚ → ℚ
  overlaps : List Box → List Box → List ℚ
  rm : ℚ → ℚ

/-- Source `torch.sigmoid`, expressed through the exponential map `e`. -/
def sigmoidWith (e : ℚ → ℚ) (x : ℚ) : ℚ := 1 / (1 + e (-x))

/-- Source `t.max(dim=1)[0]` for one row (rows fed to it are nonempty in the code;
the empty case takes an arbitrary default). -/
def rowMax : List ℚ → ℚ
  | [] => 0
  | a :: as => as.foldl (fun m v => max m v) a

/-- Source `GFLHead.anchor_center`: midpoint of an "xyxy" box. -/
def anchor_center (b : Box) : ℚ × ℚ := ((b.x1 + b.x2) / 2, (b.y1 + b.y2) / 2)

/-- Elementwise `t / s` on a box. -/
def divBox (b : Box) (s : ℚ) : Box := ⟨b.x1 / s, b.y1 / s, b.x2 / s, b.y2 / s⟩

/-- Source `anchor_center(anchors) / stride`. -/
def centersOf (anchors : List Box) (s : ℚ) : List (ℚ × ℚ) :=
  anchors.map fun b => ((anchor_center b).1 / s, (anchor_center b).2 / s)

/-- Modelled from the spec: the external geometry function
`distance2bbox(points, distances)` (§6) recovers a box from a center and
four side distances. -/
def distance2bbox (points : List (ℚ × ℚ)) (dists : List (List ℚ)) : List Box :=
  List.zipWith (fun c d =>
    ⟨c.1 - d.getD 0 0, c.2 - d.getD 1 0, c.1 + d.getD 2 0, c.2 + d.getD 3 0⟩) points dists

/-- Clamp a value into `[0, hi]`. -/
def clamp0 (v hi : ℚ) : ℚ := min (max v 0) hi

/-- Modelled from the spec: the external geometry function
`bbox2distance(points, bbox, max_dis)` (§6), flattened four distances per
anchor, each clamped to `[0, max_dis]`. -/
def bbox2distance (points : List (ℚ × ℚ)) (boxes : List Box) (maxDis : ℚ) : List ℚ :=
  (List.zipWith (fun c (b : Box) =>
    [clamp0 (c.1 - b.x1) maxDis, clamp0 (c.2 - b.y1) maxDis,
     clamp0 (b.x2 - c.1) maxDis, clamp0 (b.y2 - c.2) maxDis]) points boxes).flatten

/-- Source `weight[:, None].expand(-1, 4).reshape(-1)`: each weight repeated four
times consecutively. -/
def expand4 (w : List ℚ) : List ℚ := (w.map fun v => List.replicate 4 v).flatten

/-! ### Per-level loss computer (`GFLHead.loss_single`) -/

/-- The flattened per-level inputs of `loss_single` (the source receives
`(N, C, H, W)` tensors and immediately permutes/reshapes them to the flat
per-anchor layout modelled here).  `num_total_samples_neg` is accepted and,
as in the source, never used. -/
structure LossSingleArgs where
  anchors : List Box
  cls_score : List (List ℚ)
  bbox_pred : List (List ℚ)
  labels : List ℤ
  label_weights : List ℚ
  bbox_targets : List Box
  labels_neg : List ℤ
  label_weights_neg : List ℚ
  bbox_targets_neg : List Box
  stride : ℚ × ℚ
  assigned_neg : List ℚ
  num_total_samples : ℚ
  num_total_samples_neg : ℚ
deriving DecidableEq

/-- The 7-tuple returned by `loss_single`. -/
structure LossSingleOut where
  loss_cls : ℚ
  loss_bbox : ℚ
  loss_dfl : ℚ
  wsum : ℚ
  loss_bbox_neg : ℚ
  loss_dfl_neg : ℚ
  wsum_neg : ℚ
deriving DecidableEq

/-- Source `((labels >= 0) & (labels < bg_class_ind)).nonzero()`: indices of
foreground labels. -/
def posIndsOf (numClasses : ℕ) (labels : List ℤ) : List ℕ :=
  (List.range labels.length).filter fun i =>
    decide (0 ≤ labels.getD i 0 ∧ labels.getD i 0 < (numClasses : ℤ))

/-- Source `(assigned_neg > 0).nonzero()`. -/
def remainIndsOf (assigned : List ℚ) : List ℕ :=
  (List.range assigned.length).filter fun i => decide (0 < assigned.getD i 0)

/-- Source `cls_score.detach().sigmoid().max(dim=1)[0]`: per-anchor top predicted
class probability. -/
def weightTargetsAll (e : ℚ → ℚ) (cls : List (List ℚ)) : List ℚ :=
  cls.map fun row => rowMax (row.map (sigmoidWith e))

/-- Source `((cls_score.detach().sigmoid().max(dim=1)[0]) < 0).float()`. -/
def negIndicator (e : ℚ → ℚ) (cls : List (List ℚ)) : List ℚ :=
  cls.map fun row => if rowMax (row.map (sigmoidWith e)) < 0 then 1 else 0

/-- Source `weight_targets_neg = weight_targetss[remain_inds] + assigned_neg[remain_inds]`. -/
def weightTargetsNeg (E : Ext) (a : LossSingleArgs) : List ℚ :=
  List.zipWith (fun p q => p + q)
    (gather (negIndicator E.e a.cls_score) 0 (remainIndsOf a.assigned_neg))
    (gather a.assigned_neg 0 (remainIndsOf a.assigned_neg))

/-- Source `weight_targets[pos_inds]`: classifier confidence gathered at the
positive-stream foreground anchors. -/
def posWeightTargets (E : Ext) (numClasses : ℕ) (a : LossSingleArgs) : List ℚ :=
  gather (weightTargetsAll E.e a.cls_score) 0 (posIndsOf numClasses a.labels)

/-- Source `self.integral(pos_bbox_pred)`: rows of four decoded corner distances for
the positive-stream foreground anchors. -/
def posPredCornersDecoded (E : Ext) (numClasses regMax : ℕ) (a : LossSingleArgs) :
    List (List ℚ) :=
  integralWith E.e regMax ((gather a.bbox_pred [] (posIndsOf numClasses a.labels)).flatten)

/-- Source `distance2bbox(pos_anchor_centers, pos_bbox_pred_corners)`. -/
def posDecodePred (E : Ext) (numClasses regMax : ℕ) (a : LossSingleArgs) : List Box :=
  distance2bbox
    (centersOf (gather a.anchors ⟨0, 0, 0, 0⟩ (posIndsOf numClasses a.labels)) a.stride.1)
    (posPredCornersDecoded E numClasses regMax a)

/-- Source `pos_decode_bbox_targets = pos_bbox_targets / stride[0]`. -/
def posDecodeTargets (numClasses : ℕ) (a : LossSingleArgs) : List Box :=
  (gather a.bbox_targets ⟨0, 0, 0, 0⟩ (posIndsOf numClasses a.labels)).map
    fun b => divBox b a.stride.1

/-- Source `pred_corners = pos_bbox_pred.reshape(-1, reg_max + 1)`. -/
def posPredCorners (numClasses regMax : ℕ) (a : LossSingleArgs) : List (List ℚ) :=
  reshapeRows (regMax + 1) ((gather a.bbox_pred [] (posIndsOf numClasses a.labels)).flatten)

/-- Source `target_corners = bbox2distance(pos_anchor_centers, pos_decode_bbox_targets,
reg_max).reshape(-1)`. -/
def posTargetCorners (numClasses regMax : ℕ) (a : LossSingleArgs) : List ℚ :=
  bbox2distance
    (centersOf (gather a.anchors ⟨0, 0, 0, 0⟩ (posIndsOf numClasses a.labels)) a.stride.1)
    (posDecodeTargets numClasses a) (regMax : ℚ)

/-- Negative-stream versions of the four expressions above, gathered at the
negative-stream foreground indices `pos_inds_neg`. -/
def negPredCornersDecoded (E : Ext) (numClasses regMax : ℕ) (a : LossSingleArgs) :
    List (List ℚ) :=
  integralWith E.e regMax ((gather a.bbox_pred [] (posIndsOf numClasses a.labels_neg)).flatten)

/-- Source `distance2bbox(pos_anchor_centers_neg, pos_bbox_pred_corners_neg)`. -/
def negDecodePred (E : Ext) (numClasses regMax : ℕ) (a : LossSingleArgs) : List Box :=
  distance2bbox
    (centersOf (gather a.anchors ⟨0, 0, 0, 0⟩ (posIndsOf numClasses a.labels_neg)) a.stride.1)
    (negPredCornersDecoded E numClasses regMax a)

/-- Source `pos_decode_bbox_targets_neg = pos_bbox_targets_neg / stride[0]`. -/
def negDecodeTargets (numClasses : ℕ) (a : LossSingleArgs) : List Box :=
  (gather a.bbox_targets_neg ⟨0, 0, 0, 0⟩ (posIndsOf numClasses a.labels_neg)).map
    fun b => divBox b a.stride.1

/-- Source `pred_corners_neg = pos_bbox_pred_neg.reshape(-1, reg_max + 1)`. -/
def negPredCorners (numClasses regMax : ℕ) (a : LossSingleArgs) : List (List ℚ) :=
  reshapeRows (regMax + 1) ((gather a.bbox_pred [] (posIndsOf numClasses a.labels_neg)).flatten)

/-- Source `target_corners_neg`. -/
def negTargetCorners (numClasses regMax : ℕ) (a : LossSingleArgs) : List ℚ :=
  bbox2distance
    (centersOf (gather a.anchors ⟨0, 0, 0, 0⟩ (posIndsOf numClasses a.labels_neg)) a.stride.1)
    (negDecodeTargets numClasses a) (regMax : ℚ)

/-- Source `GFLHead.loss_single`.  The positive branch is taken when `pos_inds` is
nonempty; its degenerate `else` arm returns `bbox_pred.sum() * 0` losses and
a scalar-zero weight sum, exactly as the source.  `score` is the per-anchor
quality target array consumed by the classification kernel. -/
def loss_single (E : Ext) (numClasses regMax : ℕ) (a : LossSingleArgs) : LossSingleOut :=
  let pos_inds := posIndsOf numClasses a.labels
  let pos_inds_neg := posIndsOf numClasses a.labels_neg
  let score0 := List.replicate a.labels.length (0 : ℚ)
  let predSum := (a.bbox_pred.flatten).sum
  let posPart : ℚ × ℚ × ℚ × List ℚ :=
    if pos_inds = [] then
      (predSum * 0, predSum * 0, 0, score0)
    else
      (E.lossBbox (posDecodePred E numClasses regMax a) (posDecodeTargets numClasses a)
          (posWeightTargets E numClasses a) 1,
       E.lossDfl (posPredCorners numClasses regMax a) (posTargetCorners numClasses regMax a)
          (expand4 (posWeightTargets E numClasses a)) 4,
       (posWeightTargets E numClasses a).sum,
       scatter score0 pos_inds
         (E.overlaps (posDecodePred E numClasses regMax a) (posDecodeTargets numClasses a)))
  let negPart : ℚ × ℚ × ℚ :=
    if pos_inds_neg = [] then
      (predSum * 0, predSum * 0, 0)
    else
      (0.125 * E.lossBbox (negDecodePred E numClasses regMax a) (negDecodeTargets numClasses a)
          (weightTargetsNeg E a) 1,
       0.125 * E.lossDfl (negPredCorners numClasses regMax a) (negTargetCorners numClasses regMax a)
          (expand4 (weightTargetsNeg E a)) 4,
       (weightTargetsNeg E a).sum)
  { loss_cls := E.lossCls a.cls_score a.labels a.labels_neg pos_inds_neg posPart.2.2.2
      a.label_weights a.num_total_samples
    loss_bbox := posPart.1
    loss_dfl := posPart.2.1
    wsum := posPart.2.2.1
    loss_bbox_neg := negPart.1
    loss_dfl_neg := negPart.2.1
    wsum_neg := negPart.2.2 }

/-! ### Dual target assigner (`GFLHead._get_target_single`)

The method's body survives in `gfl_head.py` only as a commented-out block
(the active call would fall through to the out-of-repo base class); the
definitions below embed that block, which is also what spec §4.2 was
written from.  The external positive/negative assigners enter as their
per-retained-anchor results (`gtIndsPos`/`gtIndsNeg`, in the AssignResult
convention `0` = unassigned and `g + 1` = matched ground-truth `g`, as read
off the identity `PseudoSampler` contract in spec §6). -/

/-- The 14-tuple of one image's dual-stream targets. -/
structure ImgTargets where
  anchors : List Box
  labels : List ℤ
  label_weights : List ℚ
  bbox_targets : List Box
  bbox_weights : List Box
  pos_inds : List ℕ
  neg_inds : List ℕ
  labels_neg : List ℤ
  label_weights_neg : List ℚ
  bbox_targets_neg : List Box
  bbox_weights_neg : List Box
  pos_inds_neg : List ℕ
  neg_inds_neg : List ℕ
  assigned_neg : List ℚ
deriving DecidableEq

/-- The dynamic Python tuple returned by `_get_target_single`: either the
14-component target tuple, or the literal sentinel `(None, ) * 7`.
`arity` records the length of the Python tuple. -/
inductive SingleResult where
  | allNone7 : SingleResult
  | ok : ImgTargets → SingleResult
deriving DecidableEq

/-- Length of the Python tuple a `SingleResult` stands for. -/
def SingleResult.arity : SingleResult → ℕ
  | .allNone7 => 7
  | .ok _ => 14

/-- Modelled from the spec: the external `anchor_inside_flags` (§4.2 step 1)
keeps an anchor when its validity flag is set and, for a nonnegative
`allowed_border`, the box lies inside the `(h, w)` image expanded by the
border. -/
def anchorInsideFlags (anchors : List Box) (valid : List Bool) (shape : ℚ × ℚ)
    (border : ℚ) : List Bool :=
  List.zipWith (fun (b : Box) v =>
    v && (decide (border < 0) ||
      (decide (-border ≤ b.x1) && decide (-border ≤ b.y1) &&
       decide (b.x2 < shape.2 + border) && decide (b.y2 < shape.1 + border)))) anchors valid

/-- Boolean-mask indexing `xs[flags]`. -/
def boolSel {α : Type} (xs : List α) (flags : List Bool) : List α :=
  (xs.zip flags).filterMap fun p => if p.2 then some p.1 else none

/-- Source `mmdet.core.unmap`: spread `data` over the positions where `flags` is
set, filling the remaining positions with `fill`. -/
def unmapList {α : Type} (flags : List Bool) (data : List α) (fill : α) : List α :=
  match flags, data with
  | [], _ => []
  | true :: fs, d :: ds => d :: unmapList fs ds fill
  | true :: fs, [] => fill :: unmapList fs [] fill
  | false :: fs, ds => fill :: unmapList fs ds fill

/-- Source `PseudoSampler` positive indices: anchors with a ground-truth match. -/
def samplerPosInds (gtInds : List ℕ) : List ℕ :=
  (List.range gtInds.length).filter fun i => decide (0 < gtInds.getD i 0)

/-- Source `PseudoSampler` negative indices: unmatched anchors. -/
def samplerNegInds (gtInds : List ℕ) : List ℕ :=
  (List.range gtInds.length).filter fun i => decide (gtInds.getD i 0 = 0)

/-- One stream's five target arrays built from an assigner result over the
retained anchors (the shared body of the positive and negative halves of
`_get_target_single`). -/
def buildStream (numClasses : ℕ) (posWeight : ℚ) (numValid : ℕ) (gtBboxes : List Box)
    (gtLabels : List ℤ) (gtInds : List ℕ) :
    List ℤ × List ℚ × List Box × List Box × List ℕ × List ℕ :=
  let pos_inds := samplerPosInds gtInds
  let neg_inds := samplerNegInds gtInds
  let posAssignedGt := pos_inds.map fun i => gtInds.getD i 0 - 1
  let posGtBoxes := posAssignedGt.map fun g => gtBboxes.getD g ⟨0, 0, 0, 0⟩
  let bbox_targets := scatter (List.replicate numValid (⟨0, 0, 0, 0⟩ : Box)) pos_inds posGtBoxes
  let bbox_weights := scatter (List.replicate numValid (⟨0, 0, 0, 0⟩ : Box)) pos_inds
    (List.replicate pos_inds.length ⟨1, 1, 1, 1⟩)
  let labels := scatter (List.replicate numValid ((numClasses : ℤ))) pos_inds
    (posAssignedGt.map fun g => gtLabels.getD g 0)
  let pw := if posWeight ≤ 0 then (1 : ℚ) else posWeight
  let lw := scatter
    (scatter (List.replicate numValid (0 : ℚ)) pos_inds (List.replicate pos_inds.length pw))
    neg_inds (List.replicate neg_inds.length 1)
  (labels, lw, bbox_targets, bbox_weights, pos_inds, neg_inds)

/-- Source `GFLHead._get_target_single`: filter anchors by the valid border,
build both target streams through the identity sampler, and unmap back to
the full anchor index space; when no anchor survives the filtering it
returns the literal sentinel `(None, ) * 7` of the source. -/
def targetSingle (numClasses : ℕ) (posWeight : ℚ) (flatAnchors : List Box)
    (validFlags : List Bool) (imgShape : ℚ × ℚ) (allowedBorder : ℚ)
    (gtBboxes : List Box) (gtLabels : List ℤ) (gtIndsPos gtIndsNeg : List ℕ)
    (assignedNeg : List ℚ) (unmapOutputs : Bool) : SingleResult :=
  let insideFlags := anchorInsideFlags flatAnchors validFlags imgShape allowedBorder
  if insideFlags.any (fun b => b) = false then .allNone7
  else
    let anchors := boolSel flatAnchors insideFlags
    let numValid := anchors.length
    let pos := buildStream numClasses posWeight numValid gtBboxes gtLabels gtIndsPos
    let neg := buildStream numClasses posWeight numValid gtBboxes gtLabels gtIndsNeg
    if unmapOutputs then
      .ok { anchors := unmapList insideFlags anchors ⟨0, 0, 0, 0⟩
            labels := unmapList insideFlags pos.1 (numClasses : ℤ)
            label_weights := unmapList insideFlags pos.2.1 0
            bbox_targets := unmapList insideFlags pos.2.2.1 ⟨0, 0, 0, 0⟩
            bbox_weights := unmapList insideFlags pos.2.2.2.1 ⟨0, 0, 0, 0⟩
            pos_inds := pos.2.2.2.2.1
            neg_inds := pos.2.2.2.2.2
            labels_neg := unmapList insideFlags neg.1 (numClasses : ℤ)
            label_weights_neg := unmapList insideFlags neg.2.1 0
            bbox_targets_neg := unmapList insideFlags neg.2.2.1 ⟨0, 0, 0, 0⟩
            bbox_weights_neg := unmapList insideFlags neg.2.2.2.1 ⟨0, 0, 0, 0⟩
            pos_inds_neg := neg.2.2.2.2.1
            neg_inds_neg := neg.2.2.2.2.2
            assigned_neg := unmapList insideFlags assignedNeg 0 }
    else
      .ok { anchors := anchors
            labels := pos.1
            label_weights := pos.2.1
            bbox_targets := pos.2.2.1
            bbox_weights := pos.2.2.2.1
            pos_inds := pos.2.2.2.2.1
            neg_inds := pos.2.2.2.2.2
            labels_neg := neg.1
            label_weights_neg := neg.2.1
            bbox_targets_neg := neg.2.2.1
            bbox_weights_neg := neg.2.2.2.1
            pos_inds_neg := neg.2.2.2.2.1
            neg_inds_neg := neg.2.2.2.2.2
            assigned_neg := assignedNeg }

/-! ### Target aggregator (`GFLHead.get_targets`) -/

/-- Source `mmdet.core.images_to_levels`: stack the per-image flat anchor arrays
and split them back into one array per feature-map level (each level holds
the images' slices concatenated in image order, which is what the
`reshape(-1)` of `loss_single` sees). -/
def imagesToLevels {α : Type} (perImage : List (List α)) (numLevel : List ℕ) :
    List (List α) :=
  (List.range numLevel.length).map fun lv =>
    (perImage.map fun t =>
      (t.drop ((numLevel.take lv).sum)).take (numLevel.getD lv 0)).flatten

/-- The batch-level target bundle returned by `get_targets`. -/
structure BatchTargets where
  anchors_list : List (List Box)
  labels_list : List (List ℤ)
  label_weights_list : List (List ℚ)
  bbox_targets_list : List (List Box)
  bbox_weights_list : List (List Box)
  num_total_pos : ℕ
  num_total_neg : ℕ
  labels_list_neg : List (List ℤ)
  label_weights_list_neg : List (List ℚ)
  bbox_targets_list_neg : List (List Box)
  bbox_weights_list_neg : List (List Box)
  num_total_pos_neg : ℕ
  num_total_neg_neg : ℕ
  assigned_neg_list : List (List ℚ)
deriving DecidableEq

/-- The aggregation body of `get_targets`: per-image counts floored at 1 and
summed, and every per-image flat array re-partitioned per level. -/
def mkBatch (ts : List ImgTargets) (numLevel : List ℕ) : BatchTargets :=
  { anchors_list := imagesToLevels (ts.map (·.anchors)) numLevel
    labels_list := imagesToLevels (ts.map (·.labels)) numLevel
    label_weights_list := imagesToLevels (ts.map (·.label_weights)) numLevel
    bbox_targets_list := imagesToLevels (ts.map (·.bbox_targets)) numLevel
    bbox_weights_list := imagesToLevels (ts.map (·.bbox_weights)) numLevel
    num_total_pos := (ts.map fun t => max t.pos_inds.length 1).sum
    num_total_neg := (ts.map fun t => max t.neg_inds.length 1).sum
    labels_list_neg := imagesToLevels (ts.map (·.labels_neg)) numLevel
    label_weights_list_neg := imagesToLevels (ts.map (·.label_weights_neg)) numLevel
    bbox_targets_list_neg := imagesToLevels (ts.map (·.bbox_targets_neg)) numLevel
    bbox_weights_list_neg := imagesToLevels (ts.map (·.bbox_weights_neg)) numLevel
    num_total_pos_neg := (ts.map fun t => max t.pos_inds_neg.length 1).sum
    num_total_neg_neg := (ts.map fun t => max t.neg_inds_neg.length 1).sum
    assigned_neg_list := imagesToLevels (ts.map (·.assigned_neg)) numLevel }

/-- Source `GFLHead.get_targets` on the literal per-image results: `multi_apply`
zips the per-image tuples and the caller destructures 14 components, so a
7-component `(None, ) * 7` sentinel in the batch makes the destructuring
fail (a `ValueError`, modelled as `Except.error`) before the source's
`labels is None` check can run. -/
def get_targets (results : List SingleResult) (numLevel : List ℕ) :
    Except Unit BatchTargets :=
  if results.all (fun r => decide (r.arity = 14)) then
    .ok (mkBatch (results.filterMap fun r =>
      match r with
      | .ok t => some t
      | .allNone7 => none) numLevel)
  else
    .error ()

/-- Modelled from the spec: `get_targets` as specified in §4.3, with the
per-image sentinel carried as an `Option` of the full 14-component tuple
(the "all-None" sentinel of §4.2); any sentinel image voids the batch,
matching the `if any labels is None: return None` of the active source. -/
def get_targets_spec (perImage : List (Option ImgTargets)) (numLevel : List ℕ) :
    Option BatchTargets :=
  if perImage.any (fun r => r.isNone) then none
  else some (mkBatch (perImage.filterMap id) numLevel)

/-! ### Loss orchestrator (`GFLHead.loss`) -/

/-- Source `num_total_samples = max(reduce_mean(num_total_pos), 1.0)`: the floored,
cross-worker-reduced normalizer. -/
def numTotalSamplesOf (rm : ℚ → ℚ) (count : ℕ) : ℚ := max (rm (count : ℚ)) 1

/-- The `loss_single` argument bundle for one level, as assembled by the
`multi_apply` call in `loss`. -/
def lossLevelArgs (bt : BatchTargets) (cls_scores bbox_preds : List (List (List ℚ)))
    (strides : List (ℚ × ℚ)) (nts ntsNeg : ℚ) (lv : ℕ) : LossSingleArgs :=
  { anchors := bt.anchors_list.getD lv []
    cls_score := cls_scores.getD lv []
    bbox_pred := bbox_preds.getD lv []
    labels := bt.labels_list.getD lv []
    label_weights := bt.label_weights_list.getD lv []
    bbox_targets := bt.bbox_targets_list.getD lv []
    labels_neg := bt.labels_list_neg.getD lv []
    label_weights_neg := bt.label_weights_list_neg.getD lv []
    bbox_targets_neg := bt.bbox_targets_list_neg.getD lv []
    stride := strides.getD lv (1, 1)
    assigned_neg := bt.assigned_neg_list.getD lv []
    num_total_samples := nts
    num_total_samples_neg := ntsNeg }

/-- The `multi_apply(self.loss_single, ...)` sweep over levels. -/
def levelResults (E : Ext) (numClasses regMax : ℕ) (bt : BatchTargets)
    (cls_scores bbox_preds : List (List (List ℚ))) (strides : List (ℚ × ℚ)) :
    List LossSingleOut :=
  (List.range strides.length).map fun lv =>
    loss_single E numClasses regMax
      (lossLevelArgs bt cls_scores bbox_preds strides
        (numTotalSamplesOf E.rm bt.num_total_pos)
        (numTotalSamplesOf E.rm bt.num_total_pos_neg) lv)

/-- Source `avg_factor = reduce_mean(sum(avg_factor))`: the positive-stream common
denominator. -/
def avgFactorOf (E : Ext) (res : List LossSingleOut) : ℚ :=
  E.rm ((res.map (·.wsum)).sum)

/-- The negative-stream common denominator. -/
def avgFactorNegOf (E : Ext) (res : List LossSingleOut) : ℚ :=
  E.rm ((res.map (·.wsum_neg)).sum)

/-- The loss dictionary returned by `GFLHead.loss`. -/
structure LossOut where
  loss_cls : List ℚ
  loss_bbox : List ℚ
  loss_dfl : List ℚ
  loss_bbox_neg : List ℚ
  loss_dfl_neg : List ℚ
deriving DecidableEq

/-- The post-target part of `GFLHead.loss`: run `loss_single` per level and
renormalize the box and distribution losses by the reduced weight sums. -/
def lossFromBatch (E : Ext) (numClasses regMax : ℕ)
    (cls_scores bbox_preds : List (List (List ℚ))) (strides : List (ℚ × ℚ))
    (bt : BatchTargets) : LossOut :=
  let res := levelResults E numClasses regMax bt cls_scores bbox_preds strides
  let af := avgFactorOf E res
  let afNeg := avgFactorNegOf E res
  { loss_cls := res.map (·.loss_cls)
    loss_bbox := res.map fun r => r.loss_bbox / af
    loss_dfl := res.map fun r => r.loss_dfl / af
    loss_bbox_neg := res.map fun r => r.loss_bbox_neg / afNeg
    loss_dfl_neg := res.map fun r => r.loss_dfl_neg / afNeg }

/-- Source `GFLHead.loss`: compute batch targets, abort with the no-loss sentinel
(`none`, the source's `return None`) when target computation aborted, and
otherwise produce the loss dictionary. -/
def loss (E : Ext) (numClasses regMax : ℕ)
    (cls_scores bbox_preds : List (List (List ℚ))) (strides : List (ℚ × ℚ))
    (perImage : List (Option ImgTargets)) (numLevel : List ℕ) : Option LossOut :=
  match get_targets_spec perImage numLevel with
  | none => none
  | some bt => some (lossFromBatch E numClasses regMax cls_scores bbox_preds strides bt)

/-! ### Helper lemmas for the loss computer -/

theorem foldl_max_init_le (as : List ℚ) (a : ℚ) :
    a ≤ as.foldl (fun m v => max m v) a := by
  induction as generalizing a with
  | nil => exact le_refl a
  | cons b bs ih => exact le_trans (le_max_left a b) (ih (max a b))

theorem rowMax_nonneg (l : List ℚ) (h : ∀ v ∈ l, 0 ≤ v) : 0 ≤ rowMax l := by
  cases l with
  | nil => exact le_refl 0
  | cons a as =>
    exact le_trans (h a (List.mem_cons_self a as)) (foldl_max_init_le as a)

theorem sigmoidWith_nonneg (e : ℚ → ℚ) (he : ∀ x, 0 < e x) (x : ℚ) :
    0 ≤ sigmoidWith e x := by
  have h1 : (0 : ℚ) < 1 + e (-x) := by
    have := he (-x)
    linarith
  exact div_nonneg zero_le_one (le_of_lt h1)

theorem negIndicator_eq_zero (e : ℚ → ℚ) (cls : List (List ℚ)) (he : ∀ x, 0 < e x) :
    ∀ v ∈ negIndicator e cls, v = 0 := by
  intro v hv
  rcases List.mem_map.1 hv with ⟨row, _, rfl⟩
  have h0 : 0 ≤ rowMax (row.map (sigmoidWith e)) := by
    refine rowMax_nonneg _ (fun u hu => ?_)
    rcases List.mem_map.1 hu with ⟨w, _, rfl⟩
    exact sigmoidWith_nonneg e he w
  simp [not_lt.2 h0]

theorem getD_eq_default_of_forall {α : Type} (l : List α) (d : α) (i : ℕ)
    (h : ∀ v ∈ l, v = d) : l.getD i d = d := by
  rw [List.getD_eq_getElem?_getD]
  cases hl : l[i]? with
  | none => rfl
  | some v =>
    rcases List.getElem?_eq_some.1 hl with ⟨hlt, hv⟩
    simpa using h v (hv ▸ List.getElem_mem hlt)

theorem zipWith_add_map_same (f g : ℕ → ℚ) (l : List ℕ) :
    List.zipWith (fun p q => p + q) (l.map f) (l.map g) =
      l.map fun i => f i + g i := by
  induction l with
  | nil => rfl
  | cons a as ih => simp [ih]

theorem mem_posIndsOf_lt (numClasses : ℕ) (labels : List ℤ) (i : ℕ)
    (h : i ∈ posIndsOf numClasses labels) : i < labels.length :=
  List.mem_range.1 (List.mem_filter.1 h).1

theorem sum_map_const_eq {α : Type} (l : List α) (f : α → ℕ) (c : ℕ)
    (h : ∀ x ∈ l, f x = c) : (l.map f).sum = l.length * c := by
  induction l with
  | nil => simp
  | cons a as ih =>
    rw [List.map_cons, List.sum_cons, h a (List.mem_cons_self a as),
      ih (fun x hx => h x (List.mem_cons_of_mem a hx))]
    simp [List.length_cons]
    ring

/-- A trivial instantiation of the external collaborators, used to evaluate
the model on concrete inputs. -/
def trivialExt : Ext :=
  { e := fun _ => 1
    lossCls := fun _ _ _ _ _ _ _ => 0
    lossBbox := fun _ _ _ _ => 0
    lossDfl := fun _ _ _ _ => 0
    overlaps := fun _ _ => []
    rm := fun x => x }

/-- A one-anchor, one-level argument bundle whose positive stream is all
background (label = `num_classes = 1`) and whose negative stream has one
foreground anchor. -/
def demoArgsBg : LossSingleArgs :=
  { anchors := [⟨0, 0, 8, 8⟩]
    cls_score := [[1]]
    bbox_pred := [[1, 2, 3, 4, 5, 6, 7, 8]]
    labels := [1]
    label_weights := [1]
    bbox_targets := [⟨0, 0, 4, 4⟩]
    labels_neg := [0]
    label_weights_neg := [1]
    bbox_targets_neg := [⟨0, 0, 4, 4⟩]
    stride := (8, 8)
    assigned_neg := [1]
    num_total_samples := 1
    num_total_samples_neg := 1 }

/-! ### Claim theorems -/

/-- C3: if any image's per-image target computation yields the None
sentinel, `get_targets` returns `None` for the whole batch and `loss`
returns the no-loss sentinel `None`, so no partial-batch targets or losses
are produced. -/
theorem c3_batch_abort (E : Ext) (numClasses regMax : ℕ)
    (cls_scores bbox_preds : List (List (List ℚ))) (strides : List (ℚ × ℚ))
    (perImage : List (Option ImgTargets)) (numLevel : List ℕ)
    (h : (perImage.any fun r => r.isNone) = true) :
    get_targets_spec perImage numLevel = none
    ∧ loss E numClasses regMax cls_scores bbox_preds strides perImage numLevel = none := by
  constructor
  · simp [get_targets_spec, h]
  · simp [loss, get_targets_spec, h]

/-- Concrete single-image instantiation of `c3_batch_abort`. -/
theorem c3_batch_abort_witness :
    get_targets_spec [none] [1] = none
    ∧ loss trivialExt 1 1 [] [] [] [none] [1] = none :=
  c3_batch_abort trivialExt 1 1 [] [] [] [none] [1] (by decide)

/-- C4: `num_total_pos` and `num_total_pos_neg` are the sums over images of
`max(count, 1)`, the reduced normalizers are re-floored at 1, and the
classification avg_factor handed to `loss_single` is that floored value, so
it is at least 1 and never zero. -/
theorem c4_floored_normalizers (rm : ℚ → ℚ) (ts : List ImgTargets) (numLevel : List ℕ) :
    (mkBatch ts numLevel).num_total_pos = (ts.map fun t => max t.pos_inds.length 1).sum
    ∧ (mkBatch ts numLevel).num_total_pos_neg
        = (ts.map fun t => max t.pos_inds_neg.length 1).sum
    ∧ 1 ≤ numTotalSamplesOf rm (mkBatch ts numLevel).num_total_pos
    ∧ numTotalSamplesOf rm (mkBatch ts numLevel).num_total_pos ≠ 0
    ∧ 1 ≤ numTotalSamplesOf rm (mkBatch ts numLevel).num_total_pos_neg
    ∧ numTotalSamplesOf rm (mkBatch ts numLevel).num_total_pos_neg ≠ 0
    ∧ ∀ (cls_scores bbox_preds : List (List (List ℚ))) (strides : List (ℚ × ℚ))
        (x : ℚ) (lv : ℕ),
        (lossLevelArgs (mkBatch ts numLevel) cls_scores bbox_preds strides
          (numTotalSamplesOf rm (mkBatch ts numLevel).num_total_pos) x lv).num_total_samples
          = numTotalSamplesOf rm (mkBatch ts numLevel).num_total_pos := by
  have hge : ∀ c : ℕ, (1 : ℚ) ≤ numTotalSamplesOf rm c := fun c => le_max_right _ 1
  have hne : ∀ c : ℕ, numTotalSamplesOf rm c ≠ 0 := fun c =>
    ne_of_gt (lt_of_lt_of_le zero_lt_one (hge c))
  exact ⟨rfl, rfl, hge _, hne _, hge _, hne _, fun _ _ _ _ _ => rfl⟩

/-- C5: with zero positive-stream foreground anchors, the positive bbox and
dfl losses and the positive weight sum are exactly zero. -/
theorem c5_zero_positive_losses (E : Ext) (numClasses regMax : ℕ) (a : LossSingleArgs)
    (h : posIndsOf numClasses a.labels = []) :
    (loss_single E numClasses regMax a).loss_bbox = 0
    ∧ (loss_single E numClasses regMax a).loss_dfl = 0
    ∧ (loss_single E numClasses regMax a).wsum = 0 := by
  simp [loss_single, h]

/-- Concrete all-background instantiation of `c5_zero_positive_losses`. -/
theorem c5_zero_positive_losses_witness :
    (loss_single trivialExt 1 1 demoArgsBg).loss_bbox = 0
    ∧ (loss_single trivialExt 1 1 demoArgsBg).loss_dfl = 0
    ∧ (loss_single trivialExt 1 1 demoArgsBg).wsum = 0 :=
  c5_zero_positive_losses trivialExt 1 1 demoArgsBg (by decide)

/-- C7: for a level with at least one negative-stream foreground anchor, the
negative regression and distribution losses are exactly `0.125` times the
positive-stream loss formulas applied to the negative stream's decoded
predictions, targets and weights. -/
theorem c7_neg_losses_scaled (E : Ext) (numClasses regMax : ℕ) (a : LossSingleArgs)
    (h : posIndsOf numClasses a.labels_neg ≠ []) :
    (loss_single E numClasses regMax a).loss_bbox_neg
      = 0.125 * E.lossBbox (negDecodePred E numClasses regMax a)
          (negDecodeTargets numClasses a) (weightTargetsNeg E a) 1
    ∧ (loss_single E numClasses regMax a).loss_dfl_neg
      = 0.125 * E.lossDfl (negPredCorners numClasses regMax a)
          (negTargetCorners numClasses regMax a) (expand4 (weightTargetsNeg E a)) 4 := by
  simp [loss_single, h]

/-- Concrete instantiation of `c7_neg_losses_scaled`. -/
theorem c7_neg_losses_scaled_witness :
    (loss_single trivialExt 1 1 demoArgsBg).loss_bbox_neg
      = 0.125 * trivialExt.lossBbox (negDecodePred trivialExt 1 1 demoArgsBg)
          (negDecodeTargets 1 demoArgsBg) (weightTargetsNeg trivialExt demoArgsBg) 1
    ∧ (loss_single trivialExt 1 1 demoArgsBg).loss_dfl_neg
      = 0.125 * trivialExt.lossDfl (negPredCorners 1 1 demoArgsBg)
          (negTargetCorners 1 1 demoArgsBg) (expand4 (weightTargetsNeg trivialExt demoArgsBg)) 4 :=
  c7_neg_losses_scaled trivialExt 1 1 demoArgsBg (by decide)

/-- C8: the negative-stream per-anchor weight is the indicator of a negative
top sigmoid probability plus `assigned_neg`, both restricted to anchors with
`assigned_neg > 0`; the indicator is identically zero because a sigmoid
output is nonnegative, so the weight equals the restricted `assigned_neg`. -/
theorem c8_neg_weight_equals_assigned (E : Ext) (a : LossSingleArgs)
    (he : ∀ x, 0 < E.e x) :
    (∀ v ∈ negIndicator E.e a.cls_score, v = 0)
    ∧ weightTargetsNeg E a =
        (remainIndsOf a.assigned_neg).map fun i => a.assigned_neg.getD i 0 := by
  have hz := negIndicator_eq_zero E.e a.cls_score he
  refine ⟨hz, ?_⟩
  rw [weightTargetsNeg, gather, gather, zipWith_add_map_same]
  refine List.map_congr_left (fun i _ => ?_)
  rw [getD_eq_default_of_forall _ _ _ hz, zero_add]

/-- Concrete instantiation of `c8_neg_weight_equals_assigned`. -/
theorem c8_neg_weight_equals_assigned_witness :
    (∀ v ∈ negIndicator trivialExt.e demoArgsBg.cls_score, v = 0)
    ∧ weightTargetsNeg trivialExt demoArgsBg =
        (remainIndsOf demoArgsBg.assigned_neg).map
          fun i => demoArgsBg.assigned_neg.getD i 0 :=
  c8_neg_weight_equals_assigned trivialExt demoArgsBg (fun _ => one_pos)

/-- An empty one-level batch (no images). -/
def demoBatch : BatchTargets := mkBatch [] [1]

/-- The single level result of the empty demo batch. -/
def demoOut : LossSingleOut :=
  loss_single trivialExt 1 1
    (lossLevelArgs demoBatch [] [] [(8, 8)]
      (numTotalSamplesOf trivialExt.rm demoBatch.num_total_pos)
      (numTotalSamplesOf trivialExt.rm demoBatch.num_total_pos_neg) 0)

/-- C6: every level's bbox and dfl losses are divided by the one common
denominator `reduce_mean` of the summed per-level weight sums, positive
weight sums for the positive stream and negative ones for the negative
stream. -/
theorem c6_common_denominator (E : Ext) (numClasses regMax : ℕ)
    (cls_scores bbox_preds : List (List (List ℚ))) (strides : List (ℚ × ℚ))
    (bt : BatchTargets) (lv : ℕ) (r : LossSingleOut)
    (hr : (levelResults E numClasses regMax bt cls_scores bbox_preds strides)[lv]?
      = some r) :
    (lossFromBatch E numClasses regMax cls_scores bbox_preds strides bt).loss_bbox[lv]?
      = some (r.loss_bbox / E.rm (((levelResults E numClasses regMax bt cls_scores
          bbox_preds strides).map (·.wsum)).sum))
    ∧ (lossFromBatch E numClasses regMax cls_scores bbox_preds strides bt).loss_dfl[lv]?
      = some (r.loss_dfl / E.rm (((levelResults E numClasses regMax bt cls_scores
          bbox_preds strides).map (·.wsum)).sum))
    ∧ (lossFromBatch E numClasses regMax cls_scores bbox_preds strides bt).loss_bbox_neg[lv]?
      = some (r.loss_bbox_neg / E.rm (((levelResults E numClasses regMax bt cls_scores
          bbox_preds strides).map (·.wsum_neg)).sum))
    ∧ (lossFromBatch E numClasses regMax cls_scores bbox_preds strides bt).loss_dfl_neg[lv]?
      = some (r.loss_dfl_neg / E.rm (((levelResults E numClasses regMax bt cls_scores
          bbox_preds strides).map (·.wsum_neg)).sum)) := by
  refine ⟨?_, ?_, ?_, ?_⟩ <;>
    simp [lossFromBatch, avgFactorOf, avgFactorNegOf, List.getElem?_map, hr]

/-- Concrete one-level instantiation of `c6_common_denominator`. -/
theorem c6_common_denominator_witness :
    (lossFromBatch trivialExt 1 1 [] [] [(8, 8)] demoBatch).loss_bbox[0]?
      = some (demoOut.loss_bbox / trivialExt.rm (((levelResults trivialExt 1 1 demoBatch
          [] [] [(8, 8)]).map (·.wsum)).sum))
    ∧ (lossFromBatch trivialExt 1 1 [] [] [(8, 8)] demoBatch).loss_dfl[0]?
      = some (demoOut.loss_dfl / trivialExt.rm (((levelResults trivialExt 1 1 demoBatch
          [] [] [(8, 8)]).map (·.wsum)).sum))
    ∧ (lossFromBatch trivialExt 1 1 [] [] [(8, 8)] demoBatch).loss_bbox_neg[0]?
      = some (demoOut.loss_bbox_neg / trivialExt.rm (((levelResults trivialExt 1 1 demoBatch
          [] [] [(8, 8)]).map (·.wsum_neg)).sum))
    ∧ (lossFromBatch trivialExt 1 1 [] [] [(8, 8)] demoBatch).loss_dfl_neg[0]?
      = some (demoOut.loss_dfl_neg / trivialExt.rm (((levelResults trivialExt 1 1 demoBatch
          [] [] [(8, 8)]).map (·.wsum_neg)).sum)) :=
  c6_common_denominator trivialExt 1 1 [] [] [(8, 8)] demoBatch 0 demoOut rfl

/-- C9: when every level has zero positive-stream foreground anchors the
summed positive avg_factor is exactly zero, and likewise for the negative
stream when no anchor has `assigned_neg > 0`; the per-level bbox/dfl losses
are then divided by that zero without any guard or flooring. -/
theorem c9_unfloored_zero_divisor (E : Ext) (numClasses regMax : ℕ)
    (cls_scores bbox_preds : List (List (List ℚ))) (strides : List (ℚ × ℚ))
    (bt : BatchTargets) (hrm : E.rm 0 = 0)
    (hpos : ∀ lv, posIndsOf numClasses (bt.labels_list.getD lv []) = [])
    (hneg : ∀ lv, remainIndsOf (bt.assigned_neg_list.getD lv []) = []) :
    avgFactorOf E (levelResults E numClasses regMax bt cls_scores bbox_preds strides) = 0
    ∧ avgFactorNegOf E (levelResults E numClasses regMax bt cls_scores bbox_preds strides) = 0
    ∧ (lossFromBatch E numClasses regMax cls_scores bbox_preds strides bt).loss_bbox
        = (levelResults E numClasses regMax bt cls_scores bbox_preds strides).map
            (fun r => r.loss_bbox / 0)
    ∧ (lossFromBatch E numClasses regMax cls_scores bbox_preds strides bt).loss_dfl
        = (levelResults E numClasses regMax bt cls_scores bbox_preds strides).map
            (fun r => r.loss_dfl / 0)
    ∧ (lossFromBatch E numClasses regMax cls_scores bbox_preds strides bt).loss_bbox_neg
        = (levelResults E numClasses regMax bt cls_scores bbox_preds strides).map
            (fun r => r.loss_bbox_neg / 0)
    ∧ (lossFromBatch E numClasses regMax cls_scores bbox_preds strides bt).loss_dfl_neg
        = (levelResults E numClasses regMax bt cls_scores bbox_preds strides).map
            (fun r => r.loss_dfl_neg / 0) := by
  have hmem : ∀ r ∈ levelResults E numClasses regMax bt cls_scores bbox_preds strides,
      r.wsum = 0 ∧ r.wsum_neg = 0 := by
    intro r hr
    rw [levelResults] at hr
    rcases List.mem_map.1 hr with ⟨lv, _, rfl⟩
    have hp := hpos lv
    rw [List.getD_eq_getElem?_getD] at hp
    constructor
    · simp [loss_single, lossLevelArgs, hp]
    · simp only [loss_single, lossLevelArgs]
      split
      · rfl
      · have hn := hneg lv
        rw [List.getD_eq_getElem?_getD] at hn
        simp [weightTargetsNeg, hn, gather]
  have h1 : ((levelResults E numClasses regMax bt cls_scores bbox_preds strides).map
      (·.wsum)).sum = 0 := by
    refine List.sum_eq_zero (fun x hx => ?_)
    rcases List.mem_map.1 hx with ⟨r, hrr, rfl⟩
    exact (hmem r hrr).1
  have h2 : ((levelResults E numClasses regMax bt cls_scores bbox_preds strides).map
      (·.wsum_neg)).sum = 0 := by
    refine List.sum_eq_zero (fun x hx => ?_)
    rcases List.mem_map.1 hx with ⟨r, hrr, rfl⟩
    exact (hmem r hrr).2
  have ha1 : avgFactorOf E (levelResults E numClasses regMax bt cls_scores bbox_preds
      strides) = 0 := by rw [avgFactorOf, h1, hrm]
  have ha2 : avgFactorNegOf E (levelResults E numClasses regMax bt cls_scores bbox_preds
      strides) = 0 := by rw [avgFactorNegOf, h2, hrm]
  refine ⟨ha1, ha2, ?_, ?_, ?_, ?_⟩ <;> simp [lossFromBatch, ha1, ha2]

/-- Concrete instantiation of `c9_unfloored_zero_divisor` on the empty
one-level batch with the identity single-worker reduction. -/
theorem c9_unfloored_zero_divisor_witness :
    avgFactorOf trivialExt (levelResults trivialExt 1 1 demoBatch [] [] [(8, 8)]) = 0
    ∧ avgFactorNegOf trivialExt (levelResults trivialExt 1 1 demoBatch [] [] [(8, 8)]) = 0
    ∧ (lossFromBatch trivialExt 1 1 [] [] [(8, 8)] demoBatch).loss_bbox
        = (levelResults trivialExt 1 1 demoBatch [] [] [(8, 8)]).map
            (fun r => r.loss_bbox / 0)
    ∧ (lossFromBatch trivialExt 1 1 [] [] [(8, 8)] demoBatch).loss_dfl
        = (levelResults trivialExt 1 1 demoBatch [] [] [(8, 8)]).map
            (fun r => r.loss_dfl / 0)
    ∧ (lossFromBatch trivialExt 1 1 [] [] [(8, 8)] demoBatch).loss_bbox_neg
        = (levelResults trivialExt 1 1 demoBatch [] [] [(8, 8)]).map
            (fun r => r.loss_bbox_neg / 0)
    ∧ (lossFromBatch trivialExt 1 1 [] [] [(8, 8)] demoBatch).loss_dfl_neg
        = (levelResults trivialExt 1 1 demoBatch [] [] [(8, 8)]).map
            (fun r => r.loss_dfl_neg / 0) :=
  c9_unfloored_zero_divisor trivialExt 1 1 [] [] [(8, 8)] demoBatch rfl
    (fun lv => by
      rw [getD_eq_default_of_forall _ _ lv (by decide)]; rfl)
    (fun lv => by
      rw [getD_eq_default_of_forall _ _ lv (by decide)]; rfl)

/-- C10: in the negative branch of `loss_single` the weight vector is
indexed by `remain_inds` (`assigned_neg > 0`) while the decoded predictions
fed to the same weighted loss call are indexed by `pos_inds_neg`
(negative-stream foreground labels); the two argument lists agree in length
exactly when those index sets have equal size, which the code never
enforces. -/
theorem c10_neg_weight_index_mismatch (E : Ext) (numClasses regMax : ℕ)
    (a : LossSingleArgs) (hbp : a.bbox_pred.length = a.labels_neg.length)
    (hrows : ∀ row ∈ a.bbox_pred, row.length = 4 * (regMax + 1)) :
    (weightTargetsNeg E a).length = (remainIndsOf a.assigned_neg).length
    ∧ (negDecodePred E numClasses regMax a).length
        = (posIndsOf numClasses a.labels_neg).length
    ∧ ((weightTargetsNeg E a).length = (negDecodePred E numClasses regMax a).length
        ↔ (remainIndsOf a.assigned_neg).length
            = (posIndsOf numClasses a.labels_neg).length) := by
  have h1 : (weightTargetsNeg E a).length = (remainIndsOf a.assigned_neg).length := by
    simp [weightTargetsNeg, gather]
  have hgath : ∀ row ∈ gather a.bbox_pred [] (posIndsOf numClasses a.labels_neg),
      row.length = 4 * (regMax + 1) := by
    intro row hrow
    rcases List.mem_map.1 hrow with ⟨i, hi, rfl⟩
    have hilt : i < a.bbox_pred.length := by
      rw [hbp]; exact mem_posIndsOf_lt _ _ _ hi
    rw [List.getD_eq_getElem _ _ hilt]
    exact hrows _ (List.getElem_mem hilt)
  have hflat : ((gather a.bbox_pred [] (posIndsOf numClasses a.labels_neg)).flatten).length
      = ((posIndsOf numClasses a.labels_neg).length * 4) * (regMax + 1) := by
    rw [List.length_flatten, sum_map_const_eq _ _ _ hgath, gather, List.length_map]
    ring
  have hcorners : (negPredCornersDecoded E numClasses regMax a).length
      = (posIndsOf numClasses a.labels_neg).length := by
    rw [negPredCornersDecoded, integralWith_def, reshapeRows_length, List.length_map,
      reshapeRows_length, hflat, Nat.mul_div_cancel _ (Nat.succ_pos regMax),
      Nat.mul_div_cancel _ (by norm_num : (0 : ℕ) < 4)]
  have h2 : (negDecodePred E numClasses regMax a).length
      = (posIndsOf numClasses a.labels_neg).length := by
    rw [negDecodePred, distance2bbox, List.length_zipWith, hcorners, centersOf,
      List.length_map, gather, List.length_map, min_self]
  exact ⟨h1, h2, by rw [h1, h2]⟩

/-- A variant of the demo bundle whose `assigned_neg` has two positive
entries while the negative stream has a single foreground label, so the two
index sets of C10 differ in size. -/
def demoArgsMis : LossSingleArgs := { demoArgsBg with assigned_neg := [2, 3] }

/-- Concrete instantiation of `c10_neg_weight_index_mismatch` on an input
where the two index sets have different sizes. -/
theorem c10_neg_weight_index_mismatch_witness :
    (weightTargetsNeg trivialExt demoArgsMis).length
      = (remainIndsOf demoArgsMis.assigned_neg).length
    ∧ (negDecodePred trivialExt 1 1 demoArgsMis).length
        = (posIndsOf 1 demoArgsMis.labels_neg).length
    ∧ ((weightTargetsNeg trivialExt demoArgsMis).length
          = (negDecodePred trivialExt 1 1 demoArgsMis).length
        ↔ (remainIndsOf demoArgsMis.assigned_neg).length
            = (posIndsOf 1 demoArgsMis.labels_neg).length) :=
  c10_neg_weight_index_mismatch trivialExt 1 1 demoArgsMis (by decide) (by decide)

/-- C1: the per-image routine returns the target tuple or an all-None
sentinel, but the sentinel is the literal `(None, ) * 7` — a 7-component
tuple — while the active `get_targets` destructures 14 components from every
per-image result, so a sentinel image makes that destructuring fail
(`Except.error`) instead of flowing into the `labels is None` batch check:
evaluated here on an image whose only anchor lies outside the valid border. -/
theorem c1_sentinel_arity_bug :
    targetSingle 3 (-1) [⟨-10, -10, -5, -5⟩] [true] (4, 4) 0 [] [] [] [] [] true
      = SingleResult.allNone7
    ∧ SingleResult.arity SingleResult.allNone7 = 7
    ∧ (∀ t : ImgTargets, SingleResult.arity (SingleResult.ok t) = 14)
    ∧ get_targets
        [targetSingle 3 (-1) [⟨-10, -10, -5, -5⟩] [true] (4, 4) 0 [] [] [] [] [] true] [1]
      = Except.error () := by
  have h : targetSingle 3 (-1) [⟨-10, -10, -5, -5⟩] [true] (4, 4) 0 [] [] [] [] [] true
      = SingleResult.allNone7 := by decide
  refine ⟨h, rfl, fun t => rfl, ?_⟩
  rw [h]
  rfl

end GFL
